import Mathlib

/-!
Verification development for the osu-pal repository.

Each TypeScript routine relevant to the specification is shallowly embedded
as an executable Lean definition; theorems below relate those definitions to
the behaviour the specification describes.

Sections:
1. Term classifier (`src/lib/term.ts`, `termForDate`)
2. Query normalizer (`src/app/api/public/list/route.ts`, GET)
3. Rate limiter (`checkRateLimit` in `src/lib/security.ts`)
4. Security tracker / blacklist (`src/lib/securityMiddleware.ts`)
5. Request intake duplicate window (`POST /api/public/request`)
6. Admin upload path sanitizer and upload compensation (`POST /api/admin/upload`)
7. Admin listing pagination (`AdminPage`)
-/

/-! ## 1. Term classifier: `src/lib/term.ts`

JavaScript numbers arising from `Date` getters are either real integers or
`NaN` (for an Invalid Date).  Every comparison against `NaN` is false and
`NaN + 1 = NaN`; string interpolation of `NaN` yields `"NaN"`.
-/

/-- A JavaScript number as produced by `Date.prototype.getMonth` etc.:
either an integer or `NaN`. -/
inductive JSNum where
  | nan : JSNum
  | num : Int → JSNum
deriving DecidableEq, Repr

/-- JS `===` comparison of a possibly-NaN number with an integer literal. -/
def jsEq : JSNum → Int → Bool
  | .nan, _ => false
  | .num n, m => n = m

/-- JS `>=` comparison; false when the left operand is `NaN`. -/
def jsGe : JSNum → Int → Bool
  | .nan, _ => false
  | .num n, m => m ≤ n

/-- JS `<=` comparison; false when the left operand is `NaN`. -/
def jsLe : JSNum → Int → Bool
  | .nan, _ => false
  | .num n, m => n ≤ m

/-- JS addition of an integer constant; `NaN` absorbs. -/
def jsAdd : JSNum → Int → JSNum
  | .nan, _ => .nan
  | .num n, m => .num (n + m)

/-- JS template-string rendering of a number (`NaN` prints as `"NaN"`). -/
def jsNumStr : JSNum → String
  | .nan => "NaN"
  | .num n => toString n

/-- A JavaScript `Date` object: either an Invalid Date (timestamp `NaN`) or a
calendar instant, recorded by the local-time fields its getters return
(`getFullYear`, zero-based `getMonth`, `getDate`). -/
inductive JSDate where
  | invalid : JSDate
  | valid : Int → Nat → Nat → JSDate
deriving DecidableEq, Repr

/-- `Date.prototype.getFullYear`: `NaN` on an Invalid Date. -/
def JSDate.getFullYear : JSDate → JSNum
  | .invalid => .nan
  | .valid y _ _ => .num y

/-- `Date.prototype.getMonth` (zero-based): `NaN` on an Invalid Date. -/
def JSDate.getMonth : JSDate → JSNum
  | .invalid => .nan
  | .valid _ m0 _ => .num m0

/-- `Date.prototype.getDate`: `NaN` on an Invalid Date. -/
def JSDate.getDate : JSDate → JSNum
  | .invalid => .nan
  | .valid _ _ d => .num d

/-- Proleptic-Gregorian leap-year test (as used by JS `Date`). -/
def isLeap (y : Int) : Bool :=
  (y % 4 == 0 && y % 100 != 0) || y % 400 == 0

/-- Days since 1970-01-01 of the civil date `(y, m, d)` with `1 ≤ m ≤ 12`
(Howard Hinnant's `days_from_civil` algorithm, which JS engines follow for
local-field date construction). -/
def daysFromCivil (y m d : Int) : Int :=
  let y' := y - (if m ≤ 2 then 1 else 0)
  let era := Int.fdiv y' 400
  let yoe := y' - era * 400
  let mp := if 2 < m then m - 3 else m + 9
  let doy := Int.fdiv (153 * mp + 2) 5 + d - 1
  let doe := yoe * 365 + Int.fdiv yoe 4 - Int.fdiv yoe 100 + doy
  era * 146097 + doe - 719468

/-- Inverse of `daysFromCivil` (Hinnant's `civil_from_days`): the civil date
`(year, month, day)` with `1 ≤ month ≤ 12` for a day count since 1970-01-01. -/
def civilFromDays (z0 : Int) : Int × Int × Int :=
  let z := z0 + 719468
  let era := Int.fdiv z 146097
  let doe := z - era * 146097
  let yoe := Int.fdiv (doe - Int.fdiv doe 1460 + Int.fdiv doe 36524 - Int.fdiv doe 146096) 365
  let y := yoe + era * 400
  let doy := doe - (365 * yoe + Int.fdiv yoe 4 - Int.fdiv yoe 100)
  let mp := Int.fdiv (5 * doy + 2) 153
  let d := doy - Int.fdiv (153 * mp + 2) 5 + 1
  let m := mp + (if mp < 10 then 3 else -9)
  (y + (if m ≤ 2 then 1 else 0), m, d)

/-- JS `new Date(year, monthIndex, day)` (local time): a year argument in
`0..99` means `1900 + year`; out-of-range month indices and days roll over
into adjacent months/years.  The regex branch of `termForDate` always feeds
this integers, so the result is never an Invalid Date here. -/
def mkLocalDate (y mi d : Int) : JSDate :=
  let yAdj := if 0 ≤ y ∧ y ≤ 99 then y + 1900 else y
  let ym := yAdj + Int.fdiv mi 12
  let mm := Int.fmod mi 12
  let c := civilFromDays (daysFromCivil ym (mm + 1) 1 + (d - 1))
  JSDate.valid c.1 (c.2.1 - 1).toNat c.2.2.toNat

/-- Classification core of `termForDate` (`src/lib/term.ts` lines 24-45),
operating on an already-obtained `Date` value `d`.  Mirrors the source:
`month = d.getMonth() + 1`, then the Winter/Spring/Summer `if` chain with
Fall as the final `else`.  On an Invalid Date every comparison is false
(NaN semantics) and the result is `"Fall NaN"`. -/
def termForDateCore (d : JSDate) : String :=
  let month := jsAdd d.getMonth 1
  let day := d.getDate
  let year := d.getFullYear
  if (jsEq month 12 && jsGe day 15) || (jsEq month 1 && jsLe day 20) then
    let termYear := if jsEq month 12 then jsAdd year 1 else year
    "Winter " ++ jsNumStr termYear
  else if (jsEq month 1 && jsGe day 21) || (jsGe month 2 && jsLe month 4)
      || (jsEq month 5 && jsLe day 20) then
    "Spring " ++ jsNumStr year
  else if (jsEq month 5 && jsGe day 21) || jsEq month 6 || jsEq month 7
      || (jsEq month 8 && jsLe day 20) then
    "Summer " ++ jsNumStr year
  else
    "Fall " ++ jsNumStr year

/-- Whitespace trim of a character list (JS `String.prototype.trim`). -/
def trimWs (cs : List Char) : List Char :=
  ((cs.dropWhile Char.isWhitespace).reverse.dropWhile Char.isWhitespace).reverse

/-- Decimal value of a digit character. -/
def digitVal (c : Char) : Nat := c.toNat - 48

/-- The `^\d{4}-\d{2}-\d{2}$` branch of `termForDate`: test the trimmed
input against the pattern and read off year/month/day.  (The source tests
the trimmed string but splits the untrimmed one; since `parseInt` skips
leading whitespace and ignores trailing garbage, the extracted numbers
agree with parsing the trimmed string whenever the test succeeds, so the
`Number.isNaN` guard on the parsed fields is unreachable.) -/
def parseYMD (cs : List Char) : Option (Int × Int × Int) :=
  match cs with
  | [y1, y2, y3, y4, h1, m1, m2, h2, d1, d2] =>
    if [y1, y2, y3, y4, m1, m2, d1, d2].all Char.isDigit ∧ h1 = '-' ∧ h2 = '-' then
      some ((1000 * digitVal y1 + 100 * digitVal y2 + 10 * digitVal y3 + digitVal y4 : Nat),
            (10 * digitVal m1 + digitVal m2 : Nat),
            (10 * digitVal d1 + digitVal d2 : Nat))
    else none
  | _ => none

/-- Input to `termForDate`: a string or a `Date` object; `none` models
`undefined`/`null` (absent input). -/
inductive TermInput where
  | fromStr : String → TermInput
  | fromDate : JSDate → TermInput

/-- `termForDate` (`src/lib/term.ts`).  `gp` models generic JS date-string
parsing (`new Date(string)`) for strings that do not match the
`YYYY-MM-DD` pattern; it is irrelevant to matching inputs.  `none` and the
empty string are falsy, so they return `""` at the `!input` guard;
a `Date` argument (valid or not) is used directly. -/
def termForDate (gp : String → JSDate) (input : Option TermInput) : String :=
  match input with
  | none => ""
  | some (.fromDate d) => termForDateCore d
  | some (.fromStr s) =>
    if s = "" then ""
    else
      match parseYMD (trimWs s.data) with
      | some (y, m, d) => termForDateCore (mkLocalDate y (m - 1) d)
      | none =>
        match gp s with
        | .invalid => ""
        | d => termForDateCore d

/-- Modelled from the spec (§4.1): the Winter range, month=12 ∧ day≥15 or
month=1 ∧ day≤20. -/
abbrev isWinterSpec (m d : Nat) : Prop := (m = 12 ∧ 15 ≤ d) ∨ (m = 1 ∧ d ≤ 20)

/-- Modelled from the spec (§4.1): the Spring range. -/
abbrev isSpringSpec (m d : Nat) : Prop :=
  (m = 1 ∧ 21 ≤ d) ∨ (2 ≤ m ∧ m ≤ 4) ∨ (m = 5 ∧ d ≤ 20)

/-- Modelled from the spec (§4.1): the Summer range. -/
abbrev isSummerSpec (m d : Nat) : Prop :=
  (m = 5 ∧ 21 ≤ d) ∨ m = 6 ∨ m = 7 ∨ (m = 8 ∧ d ≤ 20)

/-- Modelled from the spec (§4.1): the Fall range, stated explicitly
(the source computes it as the final `else`). -/
abbrev isFallSpec (m d : Nat) : Prop :=
  (m = 8 ∧ 21 ≤ d) ∨ (9 ≤ m ∧ m ≤ 11) ∨ (m = 12 ∧ d ≤ 14)

/-- Modelled from the spec (§4.1): the expected label for a valid calendar
date, with Winter's December dates labelled by the following year. -/
def specTermLabel (y : Int) (m d : Nat) : String :=
  if isWinterSpec m d then "Winter " ++ toString (if m = 12 then y + 1 else y)
  else if isSpringSpec m d then "Spring " ++ toString y
  else if isSummerSpec m d then "Summer " ++ toString y
  else "Fall " ++ toString y

/-- Exactly one of the four spec season ranges contains `(m, d)`. -/
def exactlyOneSeason (m d : Nat) : Prop :=
  (isWinterSpec m d ∨ isSpringSpec m d ∨ isSummerSpec m d ∨ isFallSpec m d)
  ∧ ¬(isWinterSpec m d ∧ isSpringSpec m d)
  ∧ ¬(isWinterSpec m d ∧ isSummerSpec m d)
  ∧ ¬(isWinterSpec m d ∧ isFallSpec m d)
  ∧ ¬(isSpringSpec m d ∧ isSummerSpec m d)
  ∧ ¬(isSpringSpec m d ∧ isFallSpec m d)
  ∧ ¬(isSummerSpec m d ∧ isFallSpec m d)

/-- Days in a month of the proleptic Gregorian calendar. -/
def daysInMonth (y : Int) (m : Nat) : Nat :=
  if m = 2 then (if isLeap y then 29 else 28)
  else if m = 4 ∨ m = 6 ∨ m = 9 ∨ m = 11 then 30
  else 31

theorem termForDateCore_valid (y : Int) (m0 d : Nat) (hm : m0 ≤ 11) :
    termForDateCore (.valid y m0 d) = specTermLabel y (m0 + 1) d := by
  simp only [termForDateCore, JSDate.getMonth, JSDate.getDate, JSDate.getFullYear,
    jsAdd, jsEq, jsGe, jsLe, jsNumStr, specTermLabel, isWinterSpec, isSpringSpec,
    isSummerSpec, isFallSpec]
  interval_cases m0 <;> norm_num

/-- C1: for every calendar date, `termForDate` assigns exactly one of the four
term labels by the stated (month, day) boundaries, with Winter's year label
being calendar-year+1 for December dates; and the eight boundary example
strings map to the stated labels. -/
theorem termForDate_boundaries :
    (∀ (gp : String → JSDate) (y : Int) (m d : Nat),
        1 ≤ m → m ≤ 12 → 1 ≤ d → d ≤ daysInMonth y m →
        termForDate gp (some (.fromDate (.valid y (m - 1) d))) = specTermLabel y m d
          ∧ exactlyOneSeason m d)
    ∧ (∀ gp : String → JSDate,
        termForDate gp (some (.fromStr "1999-12-15")) = "Winter 2000"
        ∧ termForDate gp (some (.fromStr "2000-01-20")) = "Winter 2000"
        ∧ termForDate gp (some (.fromStr "2000-01-21")) = "Spring 2000"
        ∧ termForDate gp (some (.fromStr "2000-05-20")) = "Spring 2000"
        ∧ termForDate gp (some (.fromStr "2000-05-21")) = "Summer 2000"
        ∧ termForDate gp (some (.fromStr "2000-08-20")) = "Summer 2000"
        ∧ termForDate gp (some (.fromStr "2000-08-21")) = "Fall 2000"
        ∧ termForDate gp (some (.fromStr "2000-12-14")) = "Fall 2000") := by
  constructor
  · intro gp y m d h1 h2 _h3 _h4
    have hrw : m - 1 + 1 = m := by omega
    have hcore := termForDateCore_valid y (m - 1) d (by omega)
    rw [hrw] at hcore
    refine ⟨hcore, ?_⟩
    simp only [exactlyOneSeason, isWinterSpec, isSpringSpec, isSummerSpec, isFallSpec]
    omega
  · intro gp
    exact ⟨rfl, rfl, rfl, rfl, rfl, rfl, rfl, rfl⟩

/-- Witness for C1 at the concrete date 2000-03-14 (Spring 2000). -/
theorem termForDate_boundaries_witness :
    termForDate (fun _ => .invalid) (some (.fromDate (.valid 2000 (3 - 1) 14)))
        = specTermLabel 2000 3 14
      ∧ exactlyOneSeason 3 14 :=
  termForDate_boundaries.1 (fun _ => .invalid) 2000 3 14 (by decide) (by decide)
    (by decide) (by decide)

/-- C9 counterexample: an Invalid `Date` object (a date-like value whose
parse is invalid) is classified through the NaN-false comparison chain and
yields `"Fall NaN"`, not the empty string the claim requires. -/
theorem termForDate_invalidDate_not_empty :
    termForDate (fun _ => .invalid) (some (.fromDate .invalid)) = "Fall NaN"
      ∧ termForDate (fun _ => .invalid) (some (.fromDate .invalid)) ≠ "" := by
  exact ⟨by decide, by decide⟩

/-- C9 (amended): `termForDate` is total (never throws) and yields `""` for
absent/null input, for the empty string, and for every string input that
fails to parse (no `YYYY-MM-DD` match and generic parsing yields an Invalid
Date); an Invalid `Date` object passed directly is the one exception,
yielding `"Fall NaN"`. -/
theorem termForDate_empty_on_unparseable (gp : String → JSDate) :
    termForDate gp none = ""
    ∧ termForDate gp (some (.fromStr "")) = ""
    ∧ ∀ s : String, parseYMD (trimWs s.data) = none → gp s = .invalid →
        termForDate gp (some (.fromStr s)) = "" := by
  refine ⟨rfl, rfl, ?_⟩
  intro s h1 h2
  by_cases hs : s = ""
  · subst hs; rfl
  · simp [termForDate, hs, h1, h2]

/-- Witness for the amended C9 at the concrete unparseable string
`"notadate"`. -/
theorem termForDate_empty_on_unparseable_witness :
    termForDate (fun _ => .invalid) none = ""
    ∧ termForDate (fun _ => .invalid) (some (.fromStr "")) = ""
    ∧ termForDate (fun _ => .invalid) (some (.fromStr "notadate")) = "" :=
  ⟨(termForDate_empty_on_unparseable (fun _ => .invalid)).1,
   (termForDate_empty_on_unparseable (fun _ => .invalid)).2.1,
   (termForDate_empty_on_unparseable (fun _ => .invalid)).2.2 "notadate" (by decide) rfl⟩


/-! ## 2. Query normalizer: `src/app/api/public/list/route.ts` (GET, lines 50-117)

The free-text query is lower-cased, stripped of `%`, split on whitespace;
adjacent token pairs are scanned (unanchored) for
`(spring|summer|fall|winter)\s*[-]?\s*(\d{4})`; remaining tokens are
stripped to alphanumerics and matched against `^([a-z]+)(\d+)$`.
-/

/-- Lower-case a string (JS `String.prototype.toLowerCase`, ASCII range). -/
def lowerStr (s : String) : String := ⟨s.data.map Char.toLower⟩

/-- Model of `safe = q.toLowerCase().replace(/%/g, '')`. -/
def safeQuery (q : String) : List Char :=
  (lowerStr q).data.filter (fun c => c ≠ '%')

/-- Model of `safe.split(/\s+/).filter(Boolean)`: whitespace-separated
tokens with empties dropped.  `cur` accumulates the current token in
reverse. -/
def splitTokens : List Char → List Char → List String
  | [], cur => if cur = [] then [] else [⟨cur.reverse⟩]
  | c :: rest, cur =>
    if c.isWhitespace then
      if cur = [] then splitTokens rest [] else ⟨cur.reverse⟩ :: splitTokens rest []
    else splitTokens rest (c :: cur)

/-- The tokens of a raw query string. -/
def queryTokens (q : String) : List String := splitTokens (safeQuery q) []

/-- The four season names in the alternation order of the regex
`(spring|summer|fall|winter)`. -/
def seasonNames : List String := ["spring", "summer", "fall", "winter"]

/-- If one of the season names is a prefix of `cs`, return it (first
alternative wins, as in regex alternation) together with the remaining
characters. -/
def seasonSplit (cs : List Char) : Option (String × List Char) :=
  if "spring".data.isPrefixOf cs then some ("spring", cs.drop 6)
  else if "summer".data.isPrefixOf cs then some ("summer", cs.drop 6)
  else if "fall".data.isPrefixOf cs then some ("fall", cs.drop 4)
  else if "winter".data.isPrefixOf cs then some ("winter", cs.drop 6)
  else none

/-- Attempt the pattern `(season)\s*[-]?\s*(\d{4})` at the start of `cs`,
returning the two capture groups: after the season, greedy `\s*`, then
`[-]?` (if the next character is a hyphen it is consumed, followed by
another greedy `\s*`), then exactly four digit characters.  `[-]?` is the
only choice point of the regex and retrying without the hyphen can never
succeed when the with-hyphen attempt fails (the next character would be
`-`, not a digit), so this greedy reading is exact. -/
def termYearAt (cs : List Char) : Option (String × String) :=
  match seasonSplit cs with
  | none => none
  | some (season, rest) =>
    let r1 := rest.dropWhile Char.isWhitespace
    let r2 := match r1 with
      | c :: t => if c = '-' then t.dropWhile Char.isWhitespace else r1
      | [] => r1
    let ys := r2.take 4
    if ys.length = 4 ∧ ys.all Char.isDigit then some (season, ⟨ys⟩) else none

/-- Leftmost match of the term-year pattern in a string
(`fullTerm.match(termPattern)`): try every start position left to right. -/
def termYearSearch : List Char → Option (String × String)
  | [] => none
  | c :: rest =>
    match termYearAt (c :: rest) with
    | some r => some r
    | none => termYearSearch rest

/-- JS `Array.prototype.indexOf`: index of the first occurrence (the source
applies it to an element known to be in the list, so the `-1` case is
unreachable). -/
def idxOfStr : List String → String → Nat
  | [], _ => 0
  | x :: xs, t => if x = t then 0 else idxOfStr xs t + 1

/-- `fullTerm = term + ' ' + (terms[terms.indexOf(term) + 1] || '')`:
the token paired with the one following the *first occurrence* of its
value. -/
def fullTermOf (terms : List String) (t : String) : String :=
  t ++ " " ++ terms.getD (idxOfStr terms t + 1) ""

/-- The `terms.filter(...)` pass of the route (lines 62-72): each token
whose `fullTerm` matches the term-year pattern is dropped and overwrites
`termYear` with `match[1] + " " + match[2]` (already lower-case); all other
tokens are kept in order.  Returns `(termYear, restTerms)`. -/
def termYearScan (terms : List String) : String × List String :=
  terms.foldl
    (fun acc t =>
      match termYearSearch (fullTermOf terms t).data with
      | some (season, year) => (lowerStr (season ++ " " ++ year), acc.2)
      | none => (acc.1, acc.2 ++ [t]))
    ("", [])

/-- `term.replace(/[^a-z0-9]/gi, '')`: strip non-alphanumerics. -/
def stripTok (t : String) : String :=
  ⟨t.data.filter (fun c => c.isAlpha || c.isDigit)⟩

/-- Match against `^([a-z]+)(\d+)$` (case-insensitive): one or more letters
followed by one or more digits, returning the two groups. -/
def courseCodeSplit (s : String) : Option (String × String) :=
  let letters := s.data.takeWhile Char.isAlpha
  let rest := s.data.dropWhile Char.isAlpha
  if letters ≠ [] ∧ rest ≠ [] ∧ rest.all Char.isDigit then
    some (⟨letters⟩, ⟨rest⟩)
  else none

/-- The `restTerms.forEach` pass (lines 75-89): course-code-shaped stripped
tokens emit the concatenated and spaced lower-case variants; all other
tokens are emitted unchanged. -/
def searchPartsOf (restTerms : List String) : List String :=
  restTerms.flatMap (fun t =>
    let stripped := stripTok t
    match courseCodeSplit stripped with
    | some (code, number) => [lowerStr stripped, lowerStr (code ++ " " ++ number)]
    | none => [t])

/-- Helper for `dedupFirst`: drop elements already seen. -/
def dedupFirstAux (seen : List String) : List String → List String
  | [] => []
  | x :: xs =>
    if x ∈ seen then dedupFirstAux seen xs
    else x :: dedupFirstAux (x :: seen) xs

/-- `[...new Set(xs)]`: deduplicate keeping first occurrences. -/
def dedupFirst (xs : List String) : List String := dedupFirstAux [] xs

/-- The full normalizer of the GET route: the emitted pattern list
(`searchPatterns`, deduplicated with empties dropped) together with the
extracted `termYear` constraint (`""` when none was found). -/
def normalizeQuery (q : String) : List String × String :=
  let terms := queryTokens q
  let scanned := termYearScan terms
  ((dedupFirst (searchPartsOf scanned.2)).filter (fun p => p ≠ ""), scanned.1)

/-- C2: the normalizer maps `"CS1113"` to the pattern set
`{"cs1113", "cs 1113"}` while `"cs 1113"` yields the two independent
patterns `{"cs", "1113"}`, with no merging across whitespace-separated
tokens (and no term-year constraint in either case). -/
theorem normalizeQuery_courseCode_asymmetry :
    normalizeQuery "CS1113" = (["cs1113", "cs 1113"], "")
      ∧ normalizeQuery "cs 1113" = (["cs", "1113"], "") :=
  ⟨by decide, by decide⟩

/-- C5 counterexample: on `"fall 2024 spring 2023"` the two adjacent
term-year pairs are both detected, every match overwrites `termYear`, and
the extracted constraint is the last pair `"spring 2023"` — not the first
pair `"fall 2024"` as the claim states. -/
theorem normalizeQuery_termYear_last_not_first :
    (normalizeQuery "fall 2024 spring 2023").2 = "spring 2023"
      ∧ (normalizeQuery "fall 2024 spring 2023").2 ≠ "fall 2024"
      ∧ (normalizeQuery "fall 2024 spring 2023").1 = ["2024", "2023"] :=
  ⟨by decide, by decide, by decide⟩

theorem digit_not_ws (c : Char) (h : c.isDigit = true) : c.isWhitespace = false := by
  simp only [Char.isWhitespace, Bool.or_eq_false_iff, decide_eq_false_iff_not]
  refine ⟨⟨⟨?_, ?_⟩, ?_⟩, ?_⟩ <;> rintro rfl <;> exact absurd h (by decide)

theorem idxOfStr_get (ts : List String) (h : ts.Nodup) (i : Nat) (hi : i < ts.length) :
    idxOfStr ts (ts.get ⟨i, hi⟩) = i := by
  induction ts generalizing i with
  | nil => simp at hi
  | cons x xs ih =>
    cases i with
    | zero => simp [idxOfStr]
    | succ j =>
      have hj : j < xs.length := by simpa using hi
      have hmem : xs.get ⟨j, hj⟩ ∈ xs := xs.get_mem _ _
      have hne : x ≠ xs.get ⟨j, hj⟩ := by
        intro he
        exact (List.nodup_cons.mp h).1 (he ▸ hmem)
      simp only [List.get_cons_succ, idxOfStr, hne, if_false]
      rw [ih (List.nodup_cons.mp h).2 j hj]

theorem elim_getLast_cons {α β : Type} (r : α) (xs : List α) (a : β) (f : α → β) :
    ((r :: xs).getLast?).elim a f = (xs.getLast?).elim (f r) f := by
  cases xs with
  | nil => rfl
  | cons x xs =>
    rw [List.getLast?_cons_cons]
    cases hx : (x :: xs).getLast? with
    | none => exact absurd hx (by simp)
    | some v => rfl

theorem termYearScan_fold (ts : List String) (l : List String) :
    ∀ (a : String) (b : List String),
      l.foldl
        (fun acc t =>
          match termYearSearch (fullTermOf ts t).data with
          | some (season, year) => (lowerStr (season ++ " " ++ year), acc.2)
          | none => (acc.1, acc.2 ++ [t])) (a, b) =
      (((l.filterMap (fun t => termYearSearch (fullTermOf ts t).data)).getLast?).elim a
          (fun r => lowerStr (r.1 ++ " " ++ r.2)),
        b ++ l.filter (fun t => (termYearSearch (fullTermOf ts t).data).isNone)) := by
  induction l with
  | nil => intro a b; simp
  | cons t l ih =>
    intro a b
    cases hm : termYearSearch (fullTermOf ts t).data with
    | none =>
      simp only [List.foldl_cons, hm, List.filterMap_cons, List.filter_cons,
        Option.isNone_none]
      rw [ih]
      simp [List.append_assoc]
    | some r =>
      obtain ⟨s0, y0⟩ := r
      simp only [List.foldl_cons, hm, List.filterMap_cons, List.filter_cons,
        Option.isNone_some]
      rw [ih, elim_getLast_cons]
      simp

/-- The scan of the route's `terms.filter` pass, re-expressed: the extracted
constraint is the rendering of the LAST token (in order) whose `fullTerm`
matches, and exactly the non-matching tokens survive, in order. -/
theorem termYearScan_eq (ts : List String) :
    termYearScan ts =
      (((ts.filterMap (fun t => termYearSearch (fullTermOf ts t).data)).getLast?).elim ""
          (fun r => lowerStr (r.1 ++ " " ++ r.2)),
        ts.filter (fun t => (termYearSearch (fullTermOf ts t).data).isNone)) := by
  have h := termYearScan_fold ts ts "" []
  simpa [termYearScan] using h

theorem seasonSplit_none_of_head (c : Char) (l : List Char)
    (h : c.isDigit = true ∨ c = ' ') : seasonSplit (c :: l) = none := by
  have hs : ('s' == c) = false := by
    rcases h with h | h
    · rw [beq_eq_false_iff_ne]
      rintro rfl
      exact absurd h (by decide)
    · subst h; decide
  have hf : ('f' == c) = false := by
    rcases h with h | h
    · rw [beq_eq_false_iff_ne]
      rintro rfl
      exact absurd h (by decide)
    · subst h; decide
  have hw : ('w' == c) = false := by
    rcases h with h | h
    · rw [beq_eq_false_iff_ne]
      rintro rfl
      exact absurd h (by decide)
    · subst h; decide
  simp [seasonSplit, List.isPrefixOf, hs, hf, hw]

theorem termYearSearch_append_none (pre : List Char)
    (hpre : ∀ c ∈ pre, c.isDigit = true ∨ c = ' ') (v : List Char)
    (hv : termYearSearch v = none) : termYearSearch (pre ++ v) = none := by
  induction pre with
  | nil => simpa
  | cons c p ih =>
    rw [List.cons_append]
    have hss : seasonSplit (c :: (p ++ v)) = none :=
      seasonSplit_none_of_head c (p ++ v) (hpre c (by simp))
    have hih : termYearSearch (p ++ v) = none :=
      ih (fun x hx => hpre x (by simp [hx]))
    generalize hw : p ++ v = w at hss hih ⊢
    simp [termYearSearch, termYearAt, hss, hih]

theorem list_len4 {α : Type} (l : List α) (h : l.length = 4) :
    ∃ a b c d, l = [a, b, c, d] := by
  rcases l with _ | ⟨a, _ | ⟨b, _ | ⟨c, _ | ⟨d, _ | ⟨e, t⟩⟩⟩⟩⟩
  · exact absurd h (by simp)
  · exact absurd h (by simp)
  · exact absurd h (by simp)
  · exact absurd h (by simp)
  · exact ⟨a, b, c, d, rfl⟩
  · exfalso
    simp only [List.length_cons] at h
    omega

/-- A season name, optionally with a trailing hyphen, followed by a space
and a 4-digit token always matches the term pattern at the pair's start,
capturing that season and year. -/
theorem termYearSearch_season_year (s hyph y : String)
    (hs : s ∈ seasonNames) (hh : hyph ∈ ["", "-"])
    (hlen : y.data.length = 4) (hdig : ∀ c ∈ y.data, c.isDigit = true) :
    termYearSearch (s ++ hyph ++ " " ++ y).data = some (s, y) := by
  obtain ⟨cs⟩ := y
  obtain ⟨a, b, c, d, rfl⟩ := list_len4 cs hlen
  have ha : a.isDigit = true := hdig a (show a ∈ [a, b, c, d] by simp)
  have hb : b.isDigit = true := hdig b (show b ∈ [a, b, c, d] by simp)
  have hc : c.isDigit = true := hdig c (show c ∈ [a, b, c, d] by simp)
  have hd : d.isDigit = true := hdig d (show d ∈ [a, b, c, d] by simp)
  have haw : a.isWhitespace = false := digit_not_ws a ha
  have hne : ∀ x : Char, x.isDigit = false → ¬ (x = a) := by
    intro x hx he
    subst he
    simp [ha] at hx
  have hnd : ¬ ('-' = a) := hne '-' (by decide)
  have hnd2 : ¬ (a = '-') := fun he => hnd he.symm
  have hnf : ¬ ('f' = a) := hne 'f' (by decide)
  have hns : ¬ ('s' = a) := hne 's' (by decide)
  have hnw : ¬ ('w' = a) := hne 'w' (by decide)
  simp only [seasonNames] at hs
  fin_cases hs <;> fin_cases hh
  · change termYearSearch
        ('s' :: 'p' :: 'r' :: 'i' :: 'n' :: 'g' :: ' ' :: a :: b :: c :: d :: []) =
      some ("spring", ⟨[a, b, c, d]⟩)
    simp [termYearSearch, termYearAt, seasonSplit, List.isPrefixOf,
      haw, ha, hb, hc, hd, hnd, hnd2, hnf, hns, hnw]
  · change termYearSearch
        ('s' :: 'p' :: 'r' :: 'i' :: 'n' :: 'g' :: '-' :: ' ' :: a :: b :: c :: d :: []) =
      some ("spring", ⟨[a, b, c, d]⟩)
    simp [termYearSearch, termYearAt, seasonSplit, List.isPrefixOf,
      haw, ha, hb, hc, hd, hnd, hnd2, hnf, hns, hnw]
  · change termYearSearch
        ('s' :: 'u' :: 'm' :: 'm' :: 'e' :: 'r' :: ' ' :: a :: b :: c :: d :: []) =
      some ("summer", ⟨[a, b, c, d]⟩)
    simp [termYearSearch, termYearAt, seasonSplit, List.isPrefixOf,
      haw, ha, hb, hc, hd, hnd, hnd2, hnf, hns, hnw]
  · change termYearSearch
        ('s' :: 'u' :: 'm' :: 'm' :: 'e' :: 'r' :: '-' :: ' ' :: a :: b :: c :: d :: []) =
      some ("summer", ⟨[a, b, c, d]⟩)
    simp [termYearSearch, termYearAt, seasonSplit, List.isPrefixOf,
      haw, ha, hb, hc, hd, hnd, hnd2, hnf, hns, hnw]
  · change termYearSearch
        ('f' :: 'a' :: 'l' :: 'l' :: ' ' :: a :: b :: c :: d :: []) =
      some ("fall", ⟨[a, b, c, d]⟩)
    simp [termYearSearch, termYearAt, seasonSplit, List.isPrefixOf,
      haw, ha, hb, hc, hd, hnd, hnd2, hnf, hns, hnw]
  · change termYearSearch
        ('f' :: 'a' :: 'l' :: 'l' :: '-' :: ' ' :: a :: b :: c :: d :: []) =
      some ("fall", ⟨[a, b, c, d]⟩)
    simp [termYearSearch, termYearAt, seasonSplit, List.isPrefixOf,
      haw, ha, hb, hc, hd, hnd, hnd2, hnf, hns, hnw]
  · change termYearSearch
        ('w' :: 'i' :: 'n' :: 't' :: 'e' :: 'r' :: ' ' :: a :: b :: c :: d :: []) =
      some ("winter", ⟨[a, b, c, d]⟩)
    simp [termYearSearch, termYearAt, seasonSplit, List.isPrefixOf,
      haw, ha, hb, hc, hd, hnd, hnd2, hnf, hns, hnw]
  · change termYearSearch
        ('w' :: 'i' :: 'n' :: 't' :: 'e' :: 'r' :: '-' :: ' ' :: a :: b :: c :: d :: []) =
      some ("winter", ⟨[a, b, c, d]⟩)
    simp [termYearSearch, termYearAt, seasonSplit, List.isPrefixOf,
      haw, ha, hb, hc, hd, hnd, hnd2, hnf, hns, hnw]

/-- C5 (amended): for pairwise-distinct tokens the scan pairs each token
with its immediate successor (part 1); on any token list the extracted
constraint is the LAST token in order whose pair matches, and exactly the
non-matching tokens are kept, in order (part 2); a term-name token
(spring/summer/fall/winter, optionally with a trailing hyphen) immediately
followed by any 4-digit year token always matches, capturing that term and
year (part 3); an all-digit year token whose successor pair-string has no
match of its own never matches, hence is not removed (part 4).  With
duplicated token values the `Array.prototype.indexOf`-based pairing uses
the successor of the first occurrence of the value and can miss adjacent
pairs: the tokens of `"fall fall 2024"` extract nothing (part 5). -/
theorem normalizeQuery_termYear_extraction :
    (∀ ts : List String, ts.Nodup → ∀ i, (hi : i < ts.length) →
        fullTermOf ts (ts.get ⟨i, hi⟩) =
          ts.get ⟨i, hi⟩ ++ " " ++ ts.getD (i + 1) "")
    ∧ (∀ ts : List String,
        termYearScan ts =
          (((ts.filterMap (fun t => termYearSearch (fullTermOf ts t).data)).getLast?).elim ""
              (fun r => lowerStr (r.1 ++ " " ++ r.2)),
            ts.filter (fun t => (termYearSearch (fullTermOf ts t).data).isNone)))
    ∧ (∀ s hyph y : String, s ∈ seasonNames → hyph ∈ ["", "-"] →
        y.data.length = 4 → (∀ c ∈ y.data, c.isDigit = true) →
        termYearSearch (s ++ hyph ++ " " ++ y).data = some (s, y))
    ∧ (∀ y u : String, (∀ c ∈ y.data, c.isDigit = true) →
        termYearSearch u.data = none →
        termYearSearch (y ++ " " ++ u).data = none)
    ∧ termYearScan ["fall", "fall", "2024"] = ("", ["fall", "fall", "2024"]) := by
  refine ⟨?_, termYearScan_eq, ?_, ?_, by decide⟩
  · intro ts hnodup i hi
    unfold fullTermOf
    rw [idxOfStr_get ts hnodup i hi]
  · exact fun s hyph y hs hh hlen hdig =>
      termYearSearch_season_year s hyph y hs hh hlen hdig
  · intro y u hdig hu
    have hdata : (y ++ " " ++ u).data = (y.data ++ [' ']) ++ u.data := rfl
    rw [hdata]
    refine termYearSearch_append_none (y.data ++ [' ']) ?_ u.data hu
    intro c hc
    rcases List.mem_append.mp hc with h | h
    · exact Or.inl (hdig c h)
    · simp only [List.mem_singleton] at h
      exact Or.inr h

/-- Witness for the amended C5: the pairing, the season-year match (with
hyphen) and the year-token non-match at concrete inputs. -/
theorem normalizeQuery_termYear_extraction_witness :
    fullTermOf ["fall", "2024", "midterm"] "fall" = "fall" ++ " " ++ "2024"
    ∧ termYearSearch ("fall" ++ "-" ++ " " ++ "2024").data = some ("fall", "2024")
    ∧ termYearSearch ("2024" ++ " " ++ "midterm").data = none :=
  ⟨normalizeQuery_termYear_extraction.1 ["fall", "2024", "midterm"] (by decide) 0
      (by decide),
   normalizeQuery_termYear_extraction.2.2.1 "fall" "-" "2024" (by decide) (by decide)
      (by decide) (by decide),
   normalizeQuery_termYear_extraction.2.2.2.1 "2024" "midterm" (by decide) (by decide)⟩

/-! ## 3. Rate limiter: `checkRateLimit` (`src/lib/security.ts` lines 87-116)

The store is a JS `Map` from identifier to `{count, resetTime}`, modelled as
an association list in insertion order.  The random 1% cleanup sweep is
modelled by an explicit boolean per call.  The source reads the entry
*before* the sweep; an entry that survives to the increment branch is
unexpired and hence never swept, so ordering is preserved faithfully.
-/

/-- A rate-limit entry: request count and window reset time (ms). -/
structure RLEntry where
  count : Nat
  resetTime : Nat
deriving DecidableEq, Repr

/-- `Map.prototype.get` on an association list. -/
def rlGet : List (String × RLEntry) → String → Option RLEntry
  | [], _ => none
  | (k, v) :: rest, id => if k = id then some v else rlGet rest id

/-- `Map.prototype.set`: update in place if the key exists, else append. -/
def rlSet : List (String × RLEntry) → String → RLEntry → List (String × RLEntry)
  | [], id, e => [(id, e)]
  | (k, v) :: rest, id, e =>
    if k = id then (id, e) :: rest else (k, v) :: rlSet rest id e

/-- `checkRateLimit(identifier, limit, windowMs)`: `now` is `Date.now()` and
`sweep` models `Math.random() < 0.01` triggering the expired-entry cleanup.
Returns the boolean result and the updated store. -/
def checkRateLimit (now : Nat) (sweep : Bool) (id : String) (limit window : Nat)
    (store : List (String × RLEntry)) : Bool × List (String × RLEntry) :=
  let entry := rlGet store id
  let store1 := if sweep then store.filter (fun kv => !(kv.2.resetTime < now)) else store
  match entry with
  | none => (true, rlSet store1 id ⟨1, now + window⟩)
  | some e =>
    if e.resetTime < now then (true, rlSet store1 id ⟨1, now + window⟩)
    else if limit ≤ e.count then (false, store1)
    else (true, rlSet store1 id ⟨e.count + 1, e.resetTime⟩)

/-- Run a sequence of `checkRateLimit` calls for one identifier, collecting
the returned booleans and the final store. -/
def runRL (id : String) (limit window : Nat) :
    List (Nat × Bool) → List (String × RLEntry) → List Bool × List (String × RLEntry)
  | [], store => ([], store)
  | (t, b) :: rest, store =>
    let r := checkRateLimit t b id limit window store
    let rr := runRL id limit window rest r.2
    (r.1 :: rr.1, rr.2)

theorem runRL_within (id : String) (limit window : Nat) (calls : List (Nat × Bool))
    (c reset : Nat) (hle : ∀ p ∈ calls, p.1 ≤ reset)
    (hc : c + calls.length ≤ limit) :
    runRL id limit window calls [(id, ⟨c, reset⟩)] =
      (List.replicate calls.length true, [(id, ⟨c + calls.length, reset⟩)]) := by
  induction calls generalizing c with
  | nil => simp [runRL]
  | cons p rest ih =>
    obtain ⟨t, b⟩ := p
    have ht : t ≤ reset := hle (t, b) (by simp)
    have hcnt : c < limit := by
      have := hc
      simp only [List.length_cons] at this
      omega
    have hstep : checkRateLimit t b id limit window [(id, ⟨c, reset⟩)] =
        (true, [(id, ⟨c + 1, reset⟩)]) := by
      simp [checkRateLimit, rlGet, rlSet, Nat.not_lt.mpr ht, Nat.not_le.mpr hcnt]
    have hrest := ih (fun q hq => hle q (by simp [hq])) (c := c + 1) (by
      simp only [List.length_cons] at hc
      omega)
    simp only [runRL, hstep, hrest, List.length_cons, List.replicate_succ]
    have hcc : c + 1 + rest.length = c + (rest.length + 1) := by omega
    rw [hcc]

/-- C3: starting from an empty store, `N` calls within the window all return
`true` leaving a stored count of `N`; the `(N+1)`-th call in the window
returns `false` without touching the count; and the first call after the
reset time has passed returns `true` and resets the count to 1 (for any
pattern of cleanup sweeps). -/
theorem checkRateLimit_window (id : String) (N W t0 : Nat) (hN : 1 ≤ N)
    (b0 : Bool) (calls : List (Nat × Bool)) (hlen : calls.length = N - 1)
    (hin : ∀ p ∈ calls, p.1 ≤ t0 + W)
    (tN : Nat) (bN : Bool) (htN : tN ≤ t0 + W)
    (t' : Nat) (b' : Bool) (ht' : t0 + W < t') :
    runRL id N W ((t0, b0) :: calls) [] =
        (List.replicate N true, [(id, ⟨N, t0 + W⟩)])
    ∧ checkRateLimit tN bN id N W [(id, ⟨N, t0 + W⟩)] = (false, [(id, ⟨N, t0 + W⟩)])
    ∧ checkRateLimit t' b' id N W [(id, ⟨N, t0 + W⟩)] = (true, [(id, ⟨1, t' + W⟩)]) := by
  refine ⟨?_, ?_, ?_⟩
  · have hfirst : checkRateLimit t0 b0 id N W [] = (true, [(id, ⟨1, t0 + W⟩)]) := by
      cases b0 <;> simp [checkRateLimit, rlGet, rlSet]
    have hrest := runRL_within id N W calls 1 (t0 + W) hin (by omega)
    simp only [runRL, hfirst, hrest]
    have hrep : true :: List.replicate calls.length true = List.replicate N true := by
      rw [show N = calls.length + 1 by omega, List.replicate_succ]
    have hc1 : 1 + calls.length = N := by omega
    rw [hrep, hc1]
  · cases bN <;> simp [checkRateLimit, rlGet, Nat.not_lt.mpr htN, Nat.le_refl]
  · cases b' <;> simp [checkRateLimit, rlGet, rlSet, ht']

/-- Witness for C3 with limit 2, window 10, calls at times 0, 3, then a
denied call at 5 and a resetting call at 11. -/
theorem checkRateLimit_window_witness :
    runRL "ip" 2 10 [(0, false), (3, true)] [] =
        (List.replicate 2 true, [("ip", ⟨2, 0 + 10⟩)])
    ∧ checkRateLimit 5 false "ip" 2 10 [("ip", ⟨2, 0 + 10⟩)] =
        (false, [("ip", ⟨2, 0 + 10⟩)])
    ∧ checkRateLimit 11 true "ip" 2 10 [("ip", ⟨2, 0 + 10⟩)] =
        (true, [("ip", ⟨1, 11 + 10⟩)]) :=
  checkRateLimit_window "ip" 2 10 0 (by decide) false [(3, true)] (by decide)
    (by decide) 5 false (by decide) 11 true (by decide)

/-! ## 4. Security tracker: `src/lib/securityMiddleware.ts`

`suspiciousIPs` is a `Map` from IP to `{failedAttempts, lastAttempt}`;
`blacklistedIPs` is a `Set` whose `setTimeout`-scheduled removal is modelled
by storing the scheduled removal time with each entry: membership at time
`now` means an entry with removal time after `now`.
-/

/-- A suspicious-activity entry. -/
structure SuspEntry where
  failedAttempts : Nat
  lastAttempt : Nat
deriving DecidableEq, Repr

/-- `Map.prototype.get` for the suspicious-IP map. -/
def suspGet : List (String × SuspEntry) → String → Option SuspEntry
  | [], _ => none
  | (k, v) :: rest, ip => if k = ip then some v else suspGet rest ip

/-- `Map.prototype.set` for the suspicious-IP map. -/
def suspSet : List (String × SuspEntry) → String → SuspEntry → List (String × SuspEntry)
  | [], ip, e => [(ip, e)]
  | (k, v) :: rest, ip, e =>
    if k = ip then (ip, e) :: rest else (k, v) :: suspSet rest ip e

/-- `Map.prototype.delete` for the suspicious-IP map. -/
def suspDel : List (String × SuspEntry) → String → List (String × SuspEntry)
  | [], _ => []
  | (k, v) :: rest, ip => if k = ip then rest else (k, v) :: suspDel rest ip

/-- Combined mutable state of the module: the suspicious-IP map and the
blacklist (each blacklist entry carries its scheduled removal time). -/
structure SecState where
  suspicious : List (String × SuspEntry)
  blacklist : List (String × Nat)
deriving DecidableEq, Repr

/-- `blacklistIP(ip, durationMs)`: add `ip`, scheduling removal after the
duration. -/
def blacklistIP (now : Nat) (ip : String) (durationMs : Nat)
    (bl : List (String × Nat)) : List (String × Nat) :=
  bl ++ [(ip, now + durationMs)]

/-- `isBlacklisted(ip)` at time `now`: some entry for `ip` whose scheduled
removal has not yet fired. -/
def isBlacklisted (now : Nat) (ip : String) (bl : List (String × Nat)) : Bool :=
  bl.any (fun e => e.1 = ip && now < e.2)

/-- `trackSuspiciousActivity(ip)` (lines 46-68): reset the counter to 1 when
the gap since the last attempt exceeds one hour, else increment; on
reaching 10, blacklist for 24 hours and delete the tracker entry.  (JS
computes `now - lastAttempt` as a possibly negative number; with `now ≥
lastAttempt` unnecessary, truncated subtraction agrees: a negative gap is
never `> 3600000` and neither is a truncated 0.) -/
def trackSuspiciousActivity (now : Nat) (ip : String) (st : SecState) :
    Bool × SecState :=
  let activity := (suspGet st.suspicious ip).getD ⟨0, 0⟩
  let fa := if 3600000 < now - activity.lastAttempt then 1
            else activity.failedAttempts + 1
  let susp2 := suspSet st.suspicious ip ⟨fa, now⟩
  if 10 ≤ fa then
    (true, ⟨suspDel susp2 ip, blacklistIP now ip 86400000 st.blacklist⟩)
  else
    (false, ⟨susp2, st.blacklist⟩)

/-- The five event kinds accepted by `logSecurityEvent`. -/
inductive SecEventType where
  | rate_limit | turnstile_fail | validation_error | blacklist_hit | suspicious_ua
deriving DecidableEq, Repr

/-- The kinds fed to the failure counter:
`['turnstile_fail', 'rate_limit', 'validation_error'].includes(event.type)`. -/
def qualifying : SecEventType → Bool
  | .turnstile_fail => true
  | .rate_limit => true
  | .validation_error => true
  | _ => false

/-- State effect of `logSecurityEvent` (lines 101-125): qualifying kinds run
`trackSuspiciousActivity`, the rest only log. -/
def logSecurityEvent (ty : SecEventType) (now : Nat) (ip : String)
    (st : SecState) : SecState :=
  if qualifying ty then (trackSuspiciousActivity now ip st).2 else st

/-- Fold a sequence of logged security events over the state. -/
def runSecEvents (ip : String) : List (Nat × SecEventType) → SecState → SecState
  | [], st => st
  | (t, ty) :: rest, st => runSecEvents ip rest (logSecurityEvent ty t ip st)

/-- Times that are nondecreasing with consecutive gaps of at most one hour,
starting from `prev`. -/
def chained : Nat → List Nat → Prop
  | _, [] => True
  | prev, t :: ts => prev ≤ t ∧ t - prev ≤ 3600000 ∧ chained t ts

instance chainedDec : (prev : Nat) → (ts : List Nat) → Decidable (chained prev ts)
  | _, [] => .isTrue trivial
  | prev, t :: rest =>
    haveI := chainedDec t rest
    inferInstanceAs (Decidable (prev ≤ t ∧ t - prev ≤ 3600000 ∧ chained t rest))

/-- The time of the last event, or `prev` when there is none. -/
def lastTime (prev : Nat) : List Nat → Nat
  | [] => prev
  | t :: ts => lastTime t ts

theorem runSecEvents_chain (ip : String) (bl : List (String × Nat)) :
    ∀ (evs : List (Nat × SecEventType)) (k tprev : Nat), evs ≠ [] →
      (∀ e ∈ evs, qualifying e.2 = true) →
      chained tprev (evs.map Prod.fst) →
      1 ≤ k → k + evs.length = 10 →
      runSecEvents ip evs ⟨[(ip, ⟨k, tprev⟩)], bl⟩ =
        ⟨[], bl ++ [(ip, lastTime tprev (evs.map Prod.fst) + 86400000)]⟩ := by
  intro evs
  induction evs with
  | nil => intro k tprev hne; exact absurd rfl hne
  | cons e rest ih =>
    intro k tprev _ hq hchain hk hlen
    obtain ⟨t, ty⟩ := e
    obtain ⟨h1, h2, h3⟩ := hchain
    have hqe : qualifying ty = true := hq (t, ty) (by simp)
    have hgap : ¬ 3600000 < t - tprev := by omega
    cases rest with
    | nil =>
      have hk9 : k = 9 := by simp at hlen; omega
      subst hk9
      simp [runSecEvents, logSecurityEvent, hqe, trackSuspiciousActivity,
        suspGet, suspSet, suspDel, blacklistIP, hgap, lastTime]
    | cons e2 rest2 =>
      have hk8 : k + 1 ≤ 9 := by simp at hlen; omega
      have hstep : logSecurityEvent ty t ip ⟨[(ip, ⟨k, tprev⟩)], bl⟩ =
          ⟨[(ip, ⟨k + 1, t⟩)], bl⟩ := by
        have hnot10 : ¬ 10 ≤ k + 1 := by omega
        simp [logSecurityEvent, hqe, trackSuspiciousActivity, suspGet, suspSet,
          hgap, hnot10]
      have := ih (k + 1) t (by simp) (fun q hq2 => hq q (by simp [hq2])) h3
        (by omega) (by simp at hlen ⊢; omega)
      simp only [runSecEvents, hstep]
      simpa [lastTime] using this

/-- C4: ten qualifying failure events for one identifier, consecutive gaps
at most one hour, starting from a fresh tracker state: the identifier is
blacklisted for 24 hours (scheduled removal = last event time + 24h), its
suspicious-activity entry is deleted, and `isBlacklisted` returns true
immediately afterwards. -/
theorem securityTracker_autoBlacklist (ip : String) (bl : List (String × Nat))
    (e1 : Nat × SecEventType) (rest : List (Nat × SecEventType))
    (hlen : rest.length = 9)
    (hq1 : qualifying e1.2 = true) (hq : ∀ e ∈ rest, qualifying e.2 = true)
    (hchain : chained e1.1 (rest.map Prod.fst)) :
    runSecEvents ip (e1 :: rest) ⟨[], bl⟩ =
        ⟨[], bl ++ [(ip, lastTime e1.1 (rest.map Prod.fst) + 86400000)]⟩
    ∧ isBlacklisted (lastTime e1.1 (rest.map Prod.fst)) ip
        (runSecEvents ip (e1 :: rest) ⟨[], bl⟩).blacklist = true := by
  obtain ⟨t1, ty1⟩ := e1
  have hfirst : logSecurityEvent ty1 t1 ip ⟨[], bl⟩ = ⟨[(ip, ⟨1, t1⟩)], bl⟩ := by
    simp [logSecurityEvent, hq1, trackSuspiciousActivity, suspGet, suspSet]
  have hne : rest ≠ [] := by
    intro h; rw [h] at hlen; simp at hlen
  have hrun := runSecEvents_chain ip bl rest 1 t1 hne hq hchain (by omega)
    (by omega)
  have hmain : runSecEvents ip ((t1, ty1) :: rest) ⟨[], bl⟩ =
      ⟨[], bl ++ [(ip, lastTime t1 (rest.map Prod.fst) + 86400000)]⟩ := by
    simp only [runSecEvents, hfirst]
    exact hrun
  refine ⟨hmain, ?_⟩
  rw [hmain]
  simp [isBlacklisted]

/-- Witness for C4: ten `turnstile_fail` events at times 0, 1000, ...,
9000 blacklist the identifier until 9000 + 24h. -/
theorem securityTracker_autoBlacklist_witness :
    runSecEvents "ip" [(0, SecEventType.turnstile_fail),
        (1000, .turnstile_fail), (2000, .turnstile_fail), (3000, .turnstile_fail),
        (4000, .turnstile_fail), (5000, .turnstile_fail), (6000, .turnstile_fail),
        (7000, .turnstile_fail), (8000, .turnstile_fail), (9000, .turnstile_fail)]
        ⟨[], []⟩ = ⟨[], [("ip", 86409000)]⟩
    ∧ isBlacklisted 9000 "ip"
        (runSecEvents "ip" [(0, SecEventType.turnstile_fail),
          (1000, .turnstile_fail), (2000, .turnstile_fail), (3000, .turnstile_fail),
          (4000, .turnstile_fail), (5000, .turnstile_fail), (6000, .turnstile_fail),
          (7000, .turnstile_fail), (8000, .turnstile_fail), (9000, .turnstile_fail)]
          ⟨[], []⟩).blacklist = true := by
  have h := securityTracker_autoBlacklist "ip" [] (0, .turnstile_fail)
    [(1000, .turnstile_fail), (2000, .turnstile_fail), (3000, .turnstile_fail),
     (4000, .turnstile_fail), (5000, .turnstile_fail), (6000, .turnstile_fail),
     (7000, .turnstile_fail), (8000, .turnstile_fail), (9000, .turnstile_fail)]
    (by decide) (by decide) (by decide) (by decide)
  exact ⟨h.1.trans (by decide), h.2⟩

/-! ## 5. Request intake duplicate window: `POST /api/public/request`
(lines 129-158)

After validation, `sanitizedData.email` is either `null` or a non-empty
lower-cased address, so its truthiness test is modelled by `Option`.  The
stored `created_at` ISO strings compare lexicographically exactly as their
timestamps, modelled here as milliseconds. -/

/-- A row of the `requests` table. -/
structure ReqRow where
  course : String
  email : Option String
  details : Option String
  created_at : Nat
deriving DecidableEq, Repr

/-- Outcome of the post-validation tail of the submit handler. -/
inductive SubmitOutcome where
  | conflict
  | inserted
  | serverError
deriving DecidableEq, Repr

/-- The duplicate query: any row with the same course and email whose
`created_at` is at or after `now - 24h` (`.gte('created_at',
twentyFourHoursAgo).limit(1)` is nonempty). -/
def isDuplicateWithin (now : Nat) (rows : List ReqRow) (course email : String) : Bool :=
  rows.any (fun r =>
    r.course = course && r.email = some email && now - 86400000 ≤ r.created_at)

/-- The tail of the POST handler from the duplicate check onward: when a
non-null email is present and the duplicate query succeeds with a hit,
return 409 without inserting; on a duplicate-check error processing
continues; an insert error throws (HTTP 500) without a row; otherwise the
sanitized row is inserted. -/
def submitAfterValidation (now : Nat) (rows : List ReqRow)
    (course : String) (email : Option String) (details : Option String)
    (dupErr insErr : Bool) : SubmitOutcome × List ReqRow :=
  let dupHit :=
    match email with
    | some e => if dupErr then false else isDuplicateWithin now rows course e
    | none => false
  if dupHit then (.conflict, rows)
  else if insErr then (.serverError, rows)
  else (.inserted, rows ++ [⟨course, email, details, now⟩])

/-- C7: with a non-empty email and a prior request for the same
(course, email) within the last 24 hours, the submission is rejected with
a conflict (HTTP 409) and no row is inserted; with no such prior request,
or with no email, it is never rejected as a duplicate (and inserts when
the store accepts). -/
theorem submitRequest_duplicate_window (now : Nat) (rows : List ReqRow)
    (course e : String) (details : Option String) (insErr : Bool) :
    ((∃ r ∈ rows, r.course = course ∧ r.email = some e ∧
        now - 86400000 ≤ r.created_at) →
      submitAfterValidation now rows course (some e) details false insErr =
        (.conflict, rows))
    ∧ ((¬ ∃ r ∈ rows, r.course = course ∧ r.email = some e ∧
          now - 86400000 ≤ r.created_at) →
        (submitAfterValidation now rows course (some e) details false insErr).1 ≠
            .conflict
        ∧ submitAfterValidation now rows course (some e) details false false =
            (.inserted, rows ++ [⟨course, some e, details, now⟩]))
    ∧ ∀ dupErr : Bool,
        (submitAfterValidation now rows course none details dupErr insErr).1 ≠
          .conflict := by
  have hiff : isDuplicateWithin now rows course e = true ↔
      ∃ r ∈ rows, r.course = course ∧ r.email = some e ∧
        now - 86400000 ≤ r.created_at := by
    simp [isDuplicateWithin, List.any_eq_true, and_assoc]
  refine ⟨?_, ?_, ?_⟩
  · intro hdup
    have hd : isDuplicateWithin now rows course e = true := hiff.mpr hdup
    simp [submitAfterValidation, hd]
  · intro hdup
    have hd : isDuplicateWithin now rows course e = false := by
      rw [Bool.eq_false_iff]
      intro hc
      exact hdup (hiff.mp hc)
    cases insErr <;> simp [submitAfterValidation, hd]
  · intro dupErr
    cases insErr <;> simp [submitAfterValidation]

/-- Witness for C7: a prior row 1 hour old triggers the conflict; an
unrelated store lets the same submission insert. -/
theorem submitRequest_duplicate_window_witness :
    submitAfterValidation 7200000 [⟨"CS 1113", some "a@b.edu", none, 3600000⟩]
        "CS 1113" (some "a@b.edu") none false false =
      (.conflict, [⟨"CS 1113", some "a@b.edu", none, 3600000⟩])
    ∧ (submitAfterValidation 7200000 [] "CS 1113" (some "a@b.edu") none false
        false).1 ≠ .conflict :=
  ⟨(submitRequest_duplicate_window 7200000
      [⟨"CS 1113", some "a@b.edu", none, 3600000⟩] "CS 1113" "a@b.edu" none
      false).1 (by decide),
   ((submitRequest_duplicate_window 7200000 [] "CS 1113" "a@b.edu" none
      false).2.1 (by decide)).1⟩

/-! ## 6. Admin upload: sanitizer and compensation (`POST /api/admin/upload`)

`sanitize(s) = s.replace(/[^a-zA-Z0-9-_ ]/g, '').replace(/\s+/g, '-')`.
After the first replace the only whitespace character left is the space,
so the second replace turns space runs into single hyphens. -/

/-- Characters kept by the first replace: `[a-zA-Z0-9-_ ]`. -/
def allowedChar (c : Char) : Bool :=
  c.isAlpha || c.isDigit || c = '-' || c = '_' || c = ' '

/-- `replace(/\s+/g, '-')`: each maximal whitespace run becomes one hyphen.
`prevWs` records whether the previous character was part of a run already
replaced. -/
def collapseWs (prevWs : Bool) : List Char → List Char
  | [] => []
  | c :: rest =>
    if c.isWhitespace then
      if prevWs then collapseWs true rest else '-' :: collapseWs true rest
    else c :: collapseWs false rest

/-- `sanitize` (`POST /api/admin/upload` lines 7-9). -/
def sanitize (s : String) : String :=
  ⟨collapseWs false (s.data.filter allowedChar)⟩

theorem collapseWs_chars (cs : List Char) :
    ∀ b, ∀ c ∈ collapseWs b cs, c = '-' ∨ (c ∈ cs ∧ c.isWhitespace = false) := by
  induction cs with
  | nil => intro b c hc; simp [collapseWs] at hc
  | cons x rest ih =>
    intro b c hc
    by_cases hx : x.isWhitespace
    · simp only [collapseWs, hx, if_true] at hc
      cases b with
      | true =>
        rcases ih true c hc with h | ⟨h1, h2⟩
        · exact Or.inl h
        · exact Or.inr ⟨List.mem_cons_of_mem x h1, h2⟩
      | false =>
        rcases List.mem_cons.mp hc with h | h
        · exact Or.inl h
        · rcases ih true c h with h' | ⟨h1, h2⟩
          · exact Or.inl h'
          · exact Or.inr ⟨List.mem_cons_of_mem x h1, h2⟩
    · simp only [collapseWs, hx, if_false] at hc
      rcases List.mem_cons.mp hc with h | h
      · subst h
        exact Or.inr ⟨List.mem_cons_self c rest, by simpa using hx⟩
      · rcases ih false c h with h' | ⟨h1, h2⟩
        · exact Or.inl h'
        · exact Or.inr ⟨List.mem_cons_of_mem x h1, h2⟩

theorem collapseWs_of_no_ws (cs : List Char) (h : ∀ c ∈ cs, c.isWhitespace = false) :
    ∀ b, collapseWs b cs = cs := by
  induction cs with
  | nil => intro b; rfl
  | cons x rest ih =>
    intro b
    have hx : x.isWhitespace = false := h x (List.mem_cons_self x rest)
    simp only [collapseWs, hx, Bool.false_eq_true, if_false]
    rw [ih (fun c hc => h c (List.mem_cons_of_mem x hc)) false]

/-- Every character of `sanitize s` is alphanumeric, `-` or `_`, and is not
whitespace. -/
theorem sanitize_chars (s : String) :
    ∀ c ∈ (sanitize s).data,
      (c.isAlpha || c.isDigit || c = '-' || c = '_') = true
        ∧ c.isWhitespace = false := by
  intro c hc
  have hc' : c ∈ collapseWs false (s.data.filter allowedChar) := hc
  rcases collapseWs_chars (s.data.filter allowedChar) false c hc' with h | ⟨h1, h2⟩
  · subst h
    exact ⟨by decide, by decide⟩
  · have hall : allowedChar c = true := List.of_mem_filter h1
    simp only [allowedChar, Bool.or_eq_true] at hall
    refine ⟨?_, h2⟩
    simp only [Bool.or_eq_true]
    rcases hall with ((((h | h) | h) | h) | h)
    · exact Or.inl (Or.inl (Or.inl h))
    · exact Or.inl (Or.inl (Or.inr h))
    · exact Or.inl (Or.inr h)
    · exact Or.inr h
    · exfalso
      rw [decide_eq_true_eq] at h
      subst h
      simp at h2

/-- C10: the upload path sanitizer is idempotent and its output contains no
whitespace and no character outside `[A-Za-z0-9-_]`. -/
theorem sanitize_idempotent (s : String) :
    sanitize (sanitize s) = sanitize s
    ∧ ∀ c ∈ (sanitize s).data,
        (c.isAlpha || c.isDigit || c = '-' || c = '_') = true
          ∧ c.isWhitespace = false := by
  refine ⟨?_, sanitize_chars s⟩
  have hfilter : (sanitize s).data.filter allowedChar = (sanitize s).data := by
    apply List.filter_eq_self.mpr
    intro c hc
    rcases sanitize_chars s c hc with ⟨h1, _⟩
    simp only [allowedChar, Bool.or_eq_true] at h1 ⊢
    rcases h1 with ((h | h) | h) | h
    · exact Or.inl (Or.inl (Or.inl (Or.inl h)))
    · exact Or.inl (Or.inl (Or.inl (Or.inr h)))
    · exact Or.inl (Or.inl (Or.inr h))
    · exact Or.inl (Or.inr h)
  have hno : ∀ c ∈ (sanitize s).data, c.isWhitespace = false :=
    fun c hc => (sanitize_chars s c hc).2
  show (⟨collapseWs false ((sanitize s).data.filter allowedChar)⟩ : String) = sanitize s
  rw [hfilter, collapseWs_of_no_ws (sanitize s).data hno false]

/-- Witness for C10 at the concrete input `"a  b!c_ d-"`. -/
theorem sanitize_idempotent_witness :
    sanitize (sanitize "a  b!c_ d-") = sanitize "a  b!c_ d-"
    ∧ (('a'.isAlpha || 'a'.isDigit || 'a' = '-' || 'a' = '_') = true
        ∧ 'a'.isWhitespace = false) :=
  ⟨(sanitize_idempotent "a  b!c_ d-").1,
   (sanitize_idempotent "a  b!c_ d-").2 'a' (by decide)⟩

/-- Result of the admin upload tail (storage write, then metadata insert). -/
inductive UploadResult where
  | uploadError (msg : String)
  | insertError (msg : String)
  | ok
deriving DecidableEq, Repr

/-- The storage tail of the upload handler (lines 58-84): write the file at
`path` first (`upsert: false`); if the subsequent metadata insert fails,
remove the uploaded file (`storage.remove([path])`) and report the insert
error; otherwise succeed.  `storage` is the set of stored object paths;
collaborator failures are the boolean parameters. -/
def adminUploadStore (storage : List String) (path : String)
    (uploadFails : Bool) (uploadMsg : String)
    (insertFails : Bool) (insertMsg : String) : UploadResult × List String :=
  if uploadFails then (.uploadError uploadMsg, storage)
  else
    let storage1 := storage ++ [path]
    if insertFails then
      (.insertError insertMsg, storage1.filter (fun p => p ≠ path))
    else (.ok, storage1)

/-- C6: when the file write succeeds and the metadata insert fails, the
uploaded file at the derived path is removed again, the final storage state
equals the initial one (no orphaned file), and the operation reports the
insert error. -/
theorem adminUpload_compensation (storage : List String) (path um im : String)
    (hfresh : path ∉ storage) :
    adminUploadStore storage path false um true im = (.insertError im, storage)
    ∧ path ∉ (adminUploadStore storage path false um true im).2 := by
  have hfilter : (storage ++ [path]).filter (fun p => p ≠ path) = storage := by
    rw [List.filter_append]
    have h1 : storage.filter (fun p => p ≠ path) = storage :=
      List.filter_eq_self.mpr (fun a ha => by
        simp only [ne_eq, decide_eq_true_eq]
        intro hap
        exact hfresh (hap ▸ ha))
    have h2 : [path].filter (fun p => p ≠ path) = [] := by simp
    rw [h1, h2, List.append_nil]
  constructor
  · simp [adminUploadStore, hfilter]
    intro a ha hap
    exact hfresh (hap ▸ ha)
  · simp [adminUploadStore, hfilter]

/-- Witness for C6 at a concrete storage state and path. -/
theorem adminUpload_compensation_witness :
    adminUploadStore ["CS/1113/old.pdf"] "CS/1113/new.pdf" false "" true
        "insert failed" = (.insertError "insert failed", ["CS/1113/old.pdf"])
    ∧ "CS/1113/new.pdf" ∉
        (adminUploadStore ["CS/1113/old.pdf"] "CS/1113/new.pdf" false "" true
          "insert failed").2 :=
  adminUpload_compensation ["CS/1113/old.pdf"] "CS/1113/new.pdf" ""
    "insert failed" (by decide)

/-! ## 7. Admin listing pagination (`AdminPage`, `src/app/admin/page.tsx`)

`paginatedRows = filteredAndSortedRows.slice((currentPage-1)*pageSize,
(currentPage-1)*pageSize + pageSize)` and
`totalPages = Math.ceil(filteredAndSortedRows.length / pageSize)`; for
natural `len` and positive `pageSize` the float ceiling equals
`(len + pageSize - 1) / pageSize` in integer division. -/

/-- The slice shown for `currentPage` (1-based). -/
def paginatedRows {α : Type} (rows : List α) (pageSize currentPage : Nat) : List α :=
  (rows.drop ((currentPage - 1) * pageSize)).take pageSize

/-- `Math.ceil(len / pageSize)` over the naturals. -/
def totalPages (len pageSize : Nat) : Nat := (len + pageSize - 1) / pageSize

theorem pages_flatMap {α : Type} (l : List α) (P : Nat) (n : Nat) :
    (List.range n).flatMap (fun i => paginatedRows l P (i + 1)) = l.take (n * P) := by
  induction n with
  | zero => simp
  | succ k ih =>
    rw [List.range_succ, List.flatMap_append, ih]
    simp only [List.flatMap_cons, List.flatMap_nil, List.append_nil, paginatedRows,
      Nat.add_sub_cancel]
    rw [Nat.succ_mul, List.take_add]

/-- C8: for every row list and page size in {25, 50, 100}, `totalPages` is
the ceiling of rows/pageSize (characterized as the least page count whose
capacity covers all rows), concatenating the pages 1..totalPages in order
reproduces the whole list, and every row position lies on exactly one
page. -/
theorem adminPagination_partition {α : Type} (rows : List α) (P : Nat)
    (hP : P ∈ [25, 50, 100]) :
    (∀ c : Nat, totalPages rows.length P ≤ c ↔ rows.length ≤ P * c)
    ∧ (List.range (totalPages rows.length P)).flatMap
        (fun i => paginatedRows rows P (i + 1)) = rows
    ∧ ∀ k, k < rows.length →
        ∃! p : Nat, 1 ≤ p ∧ p ≤ totalPages rows.length P
          ∧ (p - 1) * P ≤ k ∧ k < (p - 1) * P + P := by
  have main : ∀ Q : Nat, Q = 25 ∨ Q = 50 ∨ Q = 100 →
      (∀ c : Nat, totalPages rows.length Q ≤ c ↔ rows.length ≤ Q * c)
      ∧ (List.range (totalPages rows.length Q)).flatMap
          (fun i => paginatedRows rows Q (i + 1)) = rows
      ∧ ∀ k, k < rows.length →
          ∃! p : Nat, 1 ≤ p ∧ p ≤ totalPages rows.length Q
            ∧ (p - 1) * Q ≤ k ∧ k < (p - 1) * Q + Q := by
    intro Q hQ
    refine ⟨?_, ?_, ?_⟩
    · intro c
      simp only [totalPages]
      rcases hQ with h | h | h <;> subst h <;> omega
    · rw [pages_flatMap]
      apply List.take_of_length_le
      simp only [totalPages]
      rcases hQ with h | h | h <;> subst h <;> omega
    · rcases hQ with h | h | h <;> subst h <;> intro k hk
      · refine ⟨k / 25 + 1, ⟨by omega, ?_, by omega, by omega⟩, ?_⟩
        · simp only [totalPages]; omega
        · rintro p ⟨h1, h2, h3, h4⟩; omega
      · refine ⟨k / 50 + 1, ⟨by omega, ?_, by omega, by omega⟩, ?_⟩
        · simp only [totalPages]; omega
        · rintro p ⟨h1, h2, h3, h4⟩; omega
      · refine ⟨k / 100 + 1, ⟨by omega, ?_, by omega, by omega⟩, ?_⟩
        · simp only [totalPages]; omega
        · rintro p ⟨h1, h2, h3, h4⟩; omega
  apply main
  simpa using hP

/-- Witness for C8 with 60 rows and page size 25 (3 pages). -/
theorem adminPagination_partition_witness :
    (∀ c : Nat, totalPages (List.range 60).length 25 ≤ c ↔ (List.range 60).length ≤ 25 * c)
    ∧ (List.range (totalPages (List.range 60).length 25)).flatMap
        (fun i => paginatedRows (List.range 60) 25 (i + 1)) = List.range 60
    ∧ ∀ k, k < (List.range 60).length →
        ∃! p : Nat, 1 ≤ p ∧ p ≤ totalPages (List.range 60).length 25
          ∧ (p - 1) * 25 ≤ k ∧ k < (p - 1) * 25 + 25 :=
  adminPagination_partition (List.range 60) 25 (by decide)
